import Mathlib

/-!
Verification of the hybrid retrieval engine of `execution/retrieve_chats.py`
(`hybrid_retrieve` and its helper stages `_vector_search`, `_keyword_search`,
`_merge_results`, `_apply_time_weighting`, `_mmr_select`).

Modelling conventions:
* Python floats become `ℚ`; the constants 1.2, 1.1, 0.3 are the exact
  rationals 12/10, 11/10, 3/10.
* Record ids (`conversations.id`) are `Nat`; `str(row['id'])` is injective on
  ids, so the metadata id is kept as the same `Nat`.
* Collaborators (embedding model, database, full-text match/rank, timestamp
  parsing, the clock) are fields of an `Env`.  `embed_query` never raises in
  `local_embeddings.py` (it falls back to a zero vector), so `embed` is total;
  `get_embeddings()` itself (model load) may fail, modelled by `embedOk`.
  `DatabaseManager.execute_query` propagates store errors to its caller, so a
  store error on either SQL query is a per-query failure flag.
* The SQL `WHERE NOT (metadata->>'conversation_id' = %s AND
  COALESCE((metadata->>'turn_number')::int, 0) > %s)` filter is modelled with
  SQL three-valued logic: a row is kept iff the condition is TRUE.
* Python `list.sort(key=..., reverse=True)` is a stable descending sort,
  modelled by `List.mergeSort` with the relation `b.score ≤ a.score`.
-/

namespace SecondBrain

/-- The part of a stored record's `metadata` jsonb the retrieval engine reads:
`conversation_id` and `turn_number`, either of which may be absent. -/
structure RowMeta where
  conversation_id : Option String
  turn_number : Option Int
deriving DecidableEq

/-- A row of the `conversations` table as the two SQL queries see it. -/
structure Record where
  id : Nat
  title : String
  content : String
  embedding : List ℚ
  meta : RowMeta
  timestamp : String
deriving DecidableEq

/-- A result row returned by `db.execute_query` for either search query;
`val` is the `similarity` column (vector query) or the `rank` column
(keyword query). -/
structure Row where
  id : Nat
  title : String
  content : String
  val : ℚ
  meta : RowMeta
  timestamp : String
deriving DecidableEq

/-- The metadata dict built by `_merge_results`: the spread of the row's
stored metadata plus the explicit keys `id`, `title`, `score`, `source`,
`timestamp`, and later possibly `time_boost`. -/
structure DocMeta where
  extra : RowMeta
  id : Nat
  title : String
  score : ℚ
  source : String
  timestamp : String
  time_boost : Option ℚ
deriving DecidableEq

/-- The `Document` class of `retrieve_chats.py`. -/
structure Document where
  page_content : String
  metadata : DocMeta
deriving DecidableEq

instance : Inhabited Document :=
  ⟨⟨"", ⟨⟨none, none⟩, 0, "", 0, "", "", none⟩⟩⟩

/-- The external collaborators and configuration of one retrieval run. -/
structure Env where
  /-- Contents of the `conversations` table. -/
  table : List Record
  /-- Whether `get_embeddings()` succeeds (model load). -/
  embedOk : Bool
  /-- `LocalEmbeddings.embed_query`: total, never raises. -/
  embed : String → List ℚ
  /-- Store error on the vector SQL query. -/
  vectorFails : Bool
  /-- Store error on the keyword SQL query. -/
  keywordFails : Bool
  /-- pgvector cosine distance `embedding <=> query`. -/
  cosDist : List ℚ → List ℚ → ℚ
  /-- `search_vector @@ websearch_to_tsquery(query)` on a transcript. -/
  tsMatch : String → String → Bool
  /-- `ts_rank(search_vector, websearch_to_tsquery(query))` on a transcript. -/
  tsRank : String → String → ℚ
  /-- `datetime.fromisoformat` on a timestamp string, value in days. -/
  parseTs : String → Option ℚ
  /-- `datetime.now`, in days. -/
  now : ℚ
  /-- `RETRIEVAL_TOP_K` (default 6). -/
  retrievalTopK : Nat
  /-- `SESSION_HISTORY_LIMIT` (default 10). -/
  sessionLimit : Int
  /-- `VECTOR_SEARCH_K` (default 15). -/
  vectorK : Nat
  /-- `KEYWORD_SEARCH_K` (default 10). -/
  keywordK : Nat
  /-- `MMR_DIVERSITY` (default 0.3). -/
  mmrDiversity : ℚ
  /-- `RECENCY_BOOST_DAYS` (default 7). -/
  recencyDays : Int

/-- SQL three-valued AND (Kleene). -/
def sqlAnd : Option Bool → Option Bool → Option Bool
  | some false, _ => some false
  | _, some false => some false
  | some true, some true => some true
  | _, _ => none

/-- SQL three-valued NOT. -/
def sqlNot : Option Bool → Option Bool
  | some b => some (!b)
  | none => none

/-- `COALESCE((metadata->>'turn_number')::int, 0)`. -/
def sqlTurn (m : RowMeta) : Int :=
  m.turn_number.getD 0

/-- The shared `WHERE NOT (conversation_id = exConv AND turn_number > exTurn)`
filter of both search queries; a row is kept iff the condition is TRUE under
SQL three-valued logic (a NULL condition drops the row). -/
def keepRow (r : Record) (exConv : String) (exTurn : Int) : Bool :=
  (sqlNot (sqlAnd (r.meta.conversation_id.map (fun c => decide (c = exConv)))
      (some (decide (sqlTurn r.meta > exTurn))))).getD false

/-- Records surviving the filter of the vector query, ordered by ascending
cosine distance (`ORDER BY embedding <=> %s::vector`), truncated to `LIMIT`.
The sort is modelled by the deterministic stable `insertionSort`. -/
def vectorCandRecords (env : Env) (qEmb : List ℚ) (exConv : String) (exTurn : Int)
    (limit : Nat) : List Record :=
  ((env.table.filter (fun r => keepRow r exConv exTurn)).insertionSort
      (fun a b => env.cosDist qEmb a.embedding ≤ env.cosDist qEmb b.embedding)).take limit

/-- The row the vector query builds from a record:
`1 - (embedding <=> query)` is the `similarity` column. -/
def vecRowOf (env : Env) (qEmb : List ℚ) (r : Record) : Row :=
  ⟨r.id, r.title, r.content, 1 - env.cosDist qEmb r.embedding, r.meta, r.timestamp⟩

/-- Result rows of the vector SQL query. -/
def vectorRows (env : Env) (qEmb : List ℚ) (exConv : String) (exTurn : Int)
    (limit : Nat) : List Row :=
  (vectorCandRecords env qEmb exConv exTurn limit).map (vecRowOf env qEmb)

/-- `_vector_search`: no local error handling, a store error propagates. -/
def vectorSearch (env : Env) (qEmb : List ℚ) (exConv : String) (exTurn : Int)
    (limit : Nat) : Except Unit (List Row) :=
  if env.vectorFails then Except.error ()
  else Except.ok (vectorRows env qEmb exConv exTurn limit)

/-- Records surviving the match condition and the session filter of the keyword
query, ordered by descending rank (`ORDER BY rank DESC`), truncated to `LIMIT`. -/
def keywordCandRecords (env : Env) (q : String) (exConv : String) (exTurn : Int)
    (limit : Nat) : List Record :=
  ((env.table.filter (fun r => env.tsMatch r.content q && keepRow r exConv exTurn)).insertionSort
      (fun a b => env.tsRank b.content q ≤ env.tsRank a.content q)).take limit

/-- The row the keyword query builds from a record; `val` is `ts_rank`. -/
def keyRowOf (env : Env) (q : String) (r : Record) : Row :=
  ⟨r.id, r.title, r.content, env.tsRank r.content q, r.meta, r.timestamp⟩

/-- Result rows of the keyword SQL query. -/
def keywordRows (env : Env) (q : String) (exConv : String) (exTurn : Int)
    (limit : Nat) : List Row :=
  (keywordCandRecords env q exConv exTurn limit).map (keyRowOf env q)

/-- `_keyword_search`: no local error handling, a store error propagates. -/
def keywordSearch (env : Env) (q : String) (exConv : String) (exTurn : Int)
    (limit : Nat) : Except Unit (List Row) :=
  if env.keywordFails then Except.error ()
  else Except.ok (keywordRows env q exConv exTurn limit)

/-- The `Document` built for one inserted row in `_merge_results`. -/
def rowDoc (source : String) (score : ℚ) (r : Row) : Document :=
  ⟨r.content, ⟨r.meta, r.id, r.title, score, source, r.timestamp, none⟩⟩

/-- One pass of `_merge_results` over a result list, threading the `seen_ids`
set and the accumulated `merged_docs` list. -/
def insertRows (source : String) (scoreOf : Row → ℚ) :
    List Row → List Nat → List Document → List Nat × List Document
  | [], seen, acc => (seen, acc)
  | r :: rs, seen, acc =>
    if r.id ∈ seen then insertRows source scoreOf rs seen acc
    else insertRows source scoreOf rs (r.id :: seen) (acc ++ [rowDoc source (scoreOf r) r])

/-- Keyword score rescaling: `min(float(row['rank']) / 0.3, 1.0)`. -/
def keywordScore (r : Row) : ℚ :=
  min (r.val / (3 / 10)) 1

/-- `docs.sort(key=lambda d: d.metadata['score'], reverse=True)`: the stable
descending sort by score (Python'a sort is stable; the stable sort by a total
preorder is unique, modelled by `insertionSort`). -/
def sortByScoreDesc (docs : List Document) : List Document :=
  docs.insertionSort (fun a b => b.metadata.score ≤ a.metadata.score)

/-- `_merge_results`: vector rows first (score = similarity), then keyword rows
(score = rescaled rank) whose id was not already inserted, then sort by score. -/
def mergeResults (vres kres : List Row) : List Document :=
  let p1 := insertRows "vector" (fun r => r.val) vres [] []
  let p2 := insertRows "keyword" keywordScore kres p1.1 p1.2
  sortByScoreDesc p2.2

/-- The tiered boost factor of `_apply_time_weighting` as a function of age
(in days). -/
def boostFactor (env : Env) (age : ℚ) : ℚ :=
  if age ≤ (env.recencyDays : ℚ) then 12 / 10
  else if age ≤ 30 then 11 / 10
  else 1

/-- The loop body of `_apply_time_weighting` on one document: on a parse
failure the document is returned unchanged; otherwise the score is multiplied
by the boost factor and `time_boost` is recorded. -/
def boostDoc (env : Env) (d : Document) : Document :=
  match env.parseTs d.metadata.timestamp with
  | none => d
  | some t =>
    let boost := boostFactor env (env.now - t)
    { d with metadata :=
        { d.metadata with score := d.metadata.score * boost, time_boost := some boost } }

/-- `_apply_time_weighting`: boost every document, then re-sort by score. -/
def applyTimeWeighting (env : Env) (docs : List Document) : List Document :=
  sortByScoreDesc (docs.map (boostDoc env))

/-- Dot product of two embeddings (`query_embedding @ doc_embeddings.T`). -/
def dotProd (a b : List ℚ) : ℚ :=
  (List.zipWith (fun x y => x * y) a b).sum

/-- `np.max` over a (nonempty in every use) list of rationals. -/
def listMaxQ : List ℚ → ℚ
  | [] => 0
  | x :: xs => xs.foldl max x

/-- Index of the first maximum of `f` over a list of indices: the semantics of
both `np.argmax` and Python `max(..., key=...)`, which return the
first-encountered maximal element. -/
def argmaxFrom (f : Nat → ℚ) : List Nat → Option Nat
  | [] => none
  | i :: is =>
    match argmaxFrom f is with
    | none => some i
    | some j => if f i < f j then some j else some i

/-- The per-candidate MMR score
`(1 - diversity) * relevance - diversity * max(similarity to any selected)`. -/
def mmrScore (simAt : Nat → ℚ) (dAt : Nat → Nat → ℚ) (diversity : ℚ)
    (selected : List Nat) (i : Nat) : ℚ :=
  (1 - diversity) * simAt i - diversity * listMaxQ (selected.map (fun j => dAt i j))

/-- The `while` loop of `_mmr_select`.  `fuel` is always the length of
`remaining`, so the loop stops exactly when `selected` reaches `k` or
`remaining` is exhausted; each iteration appends the first-encountered
maximizer of the MMR score and erases it from `remaining`. -/
def mmrLoop (simAt : Nat → ℚ) (dAt : Nat → Nat → ℚ) (diversity : ℚ) (k : Nat) :
    Nat → List Nat → List Nat → List Nat
  | 0, selected, _ => selected
  | fuel + 1, selected, remaining =>
    if selected.length < k then
      match argmaxFrom (mmrScore simAt dAt diversity selected) remaining with
      | none => selected
      | some best =>
        mmrLoop simAt dAt diversity k fuel (selected ++ [best]) (remaining.erase best)
    else selected

/-- The per-document embeddings of `_mmr_select`: each document embedded from
the first 500 characters of its content. -/
def docEmbsOf (embedFn : String → List ℚ) (documents : List Document) : List (List ℚ) :=
  documents.map (fun d => embedFn (d.page_content.take 500))

/-- Similarity of document `i` to the query (`query_embedding @ doc_embeddings.T`). -/
def simAtOf (embedFn : String → List ℚ) (documents : List Document)
    (qEmb : List ℚ) : Nat → ℚ :=
  fun i => dotProd qEmb ((docEmbsOf embedFn documents).getD i [])

/-- Document-to-document similarity (`doc_embeddings[idx] @ selected_embs.T`). -/
def dAtOf (embedFn : String → List ℚ) (documents : List Document) : Nat → Nat → ℚ :=
  fun i j => dotProd ((docEmbsOf embedFn documents).getD i [])
    ((docEmbsOf embedFn documents).getD j [])

/-- `_mmr_select`: skip when the pool fits in `k`; otherwise embed each
document from the first 500 characters of its content, pick the document
most similar to the query first, then greedily pick MMR maximizers;
return the selected documents in selection order. -/
def mmrSelect (embedFn : String → List ℚ) (documents : List Document)
    (qEmb : List ℚ) (k : Nat) (diversity : ℚ) : List Document :=
  if documents.length ≤ k then documents
  else
    match argmaxFrom (simAtOf embedFn documents qEmb) (List.range documents.length) with
    | none => []
    | some first =>
      (mmrLoop (simAtOf embedFn documents qEmb) (dAtOf embedFn documents) diversity k
          (documents.length - 1) [first] ((List.range documents.length).erase first)).filterMap
        (fun i => documents[i]?)

/-- The `try` body of `hybrid_retrieve`: embed the query, run both generators
(a store error propagates out of them), fuse, recency-boost, and either run
MMR (pool larger than `top_k`) or return the truncated pool. -/
def hybridCore (env : Env) (query conversationId : String) (turnNumber : Int)
    (topK : Nat) : Except Unit (List Document) :=
  if env.embedOk then do
    let qEmb := env.embed query
    let cutoff := turnNumber - env.sessionLimit
    let vres ← vectorSearch env qEmb conversationId cutoff env.vectorK
    let kres ← keywordSearch env query conversationId cutoff env.keywordK
    let weighted := applyTimeWeighting env (mergeResults vres kres)
    if topK < weighted.length then
      pure (mmrSelect env.embed weighted qEmb topK env.mmrDiversity)
    else
      pure (weighted.take topK)
  else
    Except.error ()

/-- `hybrid_retrieve`: the outer `try/except` converts any internal failure to
the empty list; `top_k` defaults to the configured `RETRIEVAL_TOP_K`. -/
def hybridRetrieve (env : Env) (query conversationId : String) (turnNumber : Int)
    (topK : Option Nat) : List Document :=
  match hybridCore env query conversationId turnNumber (topK.getD env.retrievalTopK) with
  | Except.ok docs => docs
  | Except.error _ => []

/-! Spec-side definitions, written from the specification's words, for the
refinement claims that compare a stage against its described behavior. -/

/-- Modelled from the spec: the per-document boosted score of the recency
re-weighting stage — multiply by 1.2 when age is at most `recency_boost_days`,
by 1.1 when age is greater than `recency_boost_days` but at most 30 days, by
1.0 otherwise; an unparsable timestamp leaves the score unchanged. -/
def specBoostScore (env : Env) (d : Document) : ℚ :=
  match env.parseTs d.metadata.timestamp with
  | none => d.metadata.score
  | some t =>
    if env.now - t ≤ (env.recencyDays : ℚ) then d.metadata.score * (12 / 10)
    else if (env.recencyDays : ℚ) < env.now - t ∧ env.now - t ≤ 30 then
      d.metadata.score * (11 / 10)
    else d.metadata.score * 1

/-- Modelled from the spec: a candidate (a document carrying its position for
the deterministic first-encountered tie-break) is embedded from the first 500
characters of its content. -/
def specEmbOf (embedFn : String → List ℚ) : Nat × Document → List ℚ :=
  fun c => embedFn (c.2.page_content.take 500)

/-- Modelled from the spec: a candidate's relevance is its dot-product
similarity to the query embedding. -/
def specRelOf (embedFn : String → List ℚ) (qEmb : List ℚ) : Nat × Document → ℚ :=
  fun c => dotProd qEmb (specEmbOf embedFn c)

/-- Modelled from the spec: similarity between two candidates is the dot
product of their embeddings. -/
def specSimOf (embedFn : String → List ℚ) : Nat × Document → Nat × Document → ℚ :=
  fun c d => dotProd (specEmbOf embedFn c) (specEmbOf embedFn d)

/-- Modelled from the spec: pick the candidate with the highest score from a
pool, resolving ties to the first-encountered candidate. -/
def specPick {α : Type} (score : α → ℚ) : List α → Option α
  | [] => none
  | c :: cs =>
    match specPick score cs with
    | none => some c
    | some d => if score c < score d then some d else some c

/-- Modelled from the spec: remove the selected candidate (its first
occurrence) from the remaining pool. -/
def removeFirst {α : Type} [DecidableEq α] (a : α) : List α → List α
  | [] => []
  | b :: bs => if b = a then bs else b :: removeFirst a bs

/-- Modelled from the spec: the K−1 greedy MMR rounds — each round picks, from
the remaining pool, the first-encountered candidate maximizing
`(1 − diversity) * relevance − diversity * max(similarity to any selected)`
and removes it from the pool. -/
def specRounds {α : Type} [DecidableEq α] (relOf : α → ℚ) (simOf : α → α → ℚ)
    (diversity : ℚ) : Nat → List α → List α → List α
  | 0, selected, _ => selected
  | n + 1, selected, pool =>
    match specPick
        (fun c => (1 - diversity) * relOf c -
          diversity * listMaxQ (selected.map (fun s => simOf c s))) pool with
    | none => selected
    | some c => specRounds relOf simOf diversity n (selected ++ [c]) (removeFirst c pool)

/-- Modelled from the spec: the reference greedy MMR.  When the pool fits in
`k` it is returned whole; otherwise each candidate (carrying its position for
the deterministic first-encountered tie-break) is embedded from the first 500
characters of its content, the candidate most similar to the query (dot
product) is selected first, and K−1 greedy rounds follow; the output is in
selection order. -/
def mmrSpecSelect (embedFn : String → List ℚ) (documents : List Document)
    (qEmb : List ℚ) (k : Nat) (diversity : ℚ) : List Document :=
  if documents.length ≤ k then documents
  else
    match specPick (specRelOf embedFn qEmb) documents.enum with
    | none => []
    | some c0 =>
      (specRounds (specRelOf embedFn qEmb) (specSimOf embedFn) diversity (k - 1)
          [c0] (removeFirst c0 documents.enum)).map Prod.snd

/-! Concrete environments used by witnesses and counterexamples. -/

/-- An environment whose store errors on every query. -/
def envFail : Env :=
  { table := []
    embedOk := true
    embed := fun _ => []
    vectorFails := true
    keywordFails := true
    cosDist := fun _ _ => 0
    tsMatch := fun _ _ => false
    tsRank := fun _ _ => 0
    parseTs := fun _ => none
    now := 0
    retrievalTopK := 6
    sessionLimit := 10
    vectorK := 15
    keywordK := 10
    mmrDiversity := 3 / 10
    recencyDays := 7 }

/-! Generator-level membership lemmas. -/

lemma keep_of_mem_vectorCand {env : Env} {qEmb : List ℚ} {conv : String} {cut : Int}
    {lim : Nat} {r : Record} (h : r ∈ vectorCandRecords env qEmb conv cut lim) :
    keepRow r conv cut = true := by
  have h1 := List.take_subset _ _ h
  have h2 := (List.perm_insertionSort _ _).mem_iff.mp h1
  exact (List.mem_filter.mp h2).2

lemma keep_of_mem_keywordCand {env : Env} {q : String} {conv : String} {cut : Int}
    {lim : Nat} {r : Record} (h : r ∈ keywordCandRecords env q conv cut lim) :
    keepRow r conv cut = true := by
  have h1 := List.take_subset _ _ h
  have h2 := (List.perm_insertionSort _ _).mem_iff.mp h1
  exact (Bool.and_eq_true _ _ |>.mp (List.mem_filter.mp h2).2).2

/-- On any collaborator failure the public operation returns the empty list. -/
lemma hybrid_fail_nil (env : Env) (query conversationId : String)
    (turnNumber : Int) (topK : Option Nat)
    (h : env.embedOk = false ∨ env.vectorFails = true ∨ env.keywordFails = true) :
    hybridRetrieve env query conversationId turnNumber topK = [] := by
  rcases h with h | h | h
  · simp [hybridRetrieve, hybridCore, h]
  · cases he : env.embedOk <;>
      simp [hybridRetrieve, hybridCore, vectorSearch, he, h, Bind.bind, Except.bind]
  · cases he : env.embedOk <;> cases hv : env.vectorFails <;>
      simp [hybridRetrieve, hybridCore, vectorSearch, keywordSearch, he, hv, h,
        Bind.bind, Except.bind]

/-- When every collaborator succeeds, the public operation runs the full
pipeline: generate, fuse, boost, then MMR or truncation. -/
lemma hybridRetrieve_success (env : Env) (he : env.embedOk = true)
    (hv : env.vectorFails = false) (hk : env.keywordFails = false)
    (query conversationId : String) (turnNumber : Int) (topK : Option Nat) :
    hybridRetrieve env query conversationId turnNumber topK =
      (if topK.getD env.retrievalTopK <
          (applyTimeWeighting env
            (mergeResults
              (vectorRows env (env.embed query) conversationId
                (turnNumber - env.sessionLimit) env.vectorK)
              (keywordRows env query conversationId
                (turnNumber - env.sessionLimit) env.keywordK))).length then
        mmrSelect env.embed
          (applyTimeWeighting env
            (mergeResults
              (vectorRows env (env.embed query) conversationId
                (turnNumber - env.sessionLimit) env.vectorK)
              (keywordRows env query conversationId
                (turnNumber - env.sessionLimit) env.keywordK)))
          (env.embed query) (topK.getD env.retrievalTopK) env.mmrDiversity
      else
        (applyTimeWeighting env
            (mergeResults
              (vectorRows env (env.embed query) conversationId
                (turnNumber - env.sessionLimit) env.vectorK)
              (keywordRows env query conversationId
                (turnNumber - env.sessionLimit) env.keywordK))).take
          (topK.getD env.retrievalTopK)) := by
  unfold hybridRetrieve hybridCore vectorSearch keywordSearch
  simp only [he, hv, hk, if_true, if_false, Bool.false_eq_true, Bind.bind, Except.bind]
  by_cases hc : topK.getD env.retrievalTopK <
      (applyTimeWeighting env
        (mergeResults
          (vectorRows env (env.embed query) conversationId
            (turnNumber - env.sessionLimit) env.vectorK)
          (keywordRows env query conversationId
            (turnNumber - env.sessionLimit) env.keywordK))).length <;>
    simp [hc, pure, Except.pure]

/-- Claim C1: `hybrid_retrieve` never raises — if `get_embeddings` fails or the
store errors on either query, the outer handler returns the empty list. -/
theorem retrieve_graceful_degradation (env : Env) (query conversationId : String)
    (turnNumber : Int) (topK : Option Nat)
    (h : env.embedOk = false ∨ env.vectorFails = true ∨ env.keywordFails = true) :
    hybridRetrieve env query conversationId turnNumber topK = [] :=
  hybrid_fail_nil env query conversationId turnNumber topK h

/-- Witness for C1 at a concrete failing environment. -/
theorem retrieve_graceful_degradation_witness :
    (envFail.embedOk = false ∨ envFail.vectorFails = true ∨ envFail.keywordFails = true) ∧
      hybridRetrieve envFail "query" "conv" 0 none = [] :=
  ⟨Or.inr (Or.inl rfl),
    retrieve_graceful_degradation envFail "query" "conv" 0 none (Or.inr (Or.inl rfl))⟩

/-- Counterexample to C2 as stated: when the store errors, a candidate
generator does not return an empty list — it propagates the error
(`_vector_search` and `_keyword_search` have no exception handling and
`DatabaseManager.execute_query` re-raises). -/
theorem generator_store_error_cex :
    vectorSearch envFail [] "conv" 0 15 = Except.error () ∧
      vectorSearch envFail [] "conv" 0 15 ≠ Except.ok ([] : List Row) ∧
      keywordSearch envFail "query" "conv" 0 10 = Except.error () := by
  refine ⟨rfl, ?_, rfl⟩
  intro h
  exact Except.noConfusion h

/-- Claim C2 (amended): when the persistence store errors on its query, each
candidate generator propagates the error to `hybrid_retrieve`, whose outer
handler catches it and returns the empty list, so store errors never escape
the public operation. -/
theorem generator_store_error_propagates (env : Env) (qEmb : List ℚ)
    (query conversationId : String) (cutoff turnNumber : Int) (limV limK : Nat)
    (topK : Option Nat) (hv : env.vectorFails = true) (hk : env.keywordFails = true) :
    vectorSearch env qEmb conversationId cutoff limV = Except.error () ∧
      keywordSearch env query conversationId cutoff limK = Except.error () ∧
      hybridRetrieve env query conversationId turnNumber topK = [] := by
  refine ⟨by simp [vectorSearch, hv], by simp [keywordSearch, hk], ?_⟩
  exact hybrid_fail_nil env query conversationId turnNumber topK (Or.inr (Or.inl hv))

/-- Witness for the amended C2 at a concrete failing environment. -/
theorem generator_store_error_propagates_witness :
    envFail.vectorFails = true ∧ envFail.keywordFails = true ∧
      (vectorSearch envFail [] "conv" 0 15 = Except.error () ∧
        keywordSearch envFail "query" "conv" 0 10 = Except.error () ∧
        hybridRetrieve envFail "query" "conv" 0 none = []) :=
  ⟨rfl, rfl,
    generator_store_error_propagates envFail [] "query" "conv" 0 0 15 10 none rfl rfl⟩

/-- Claim C3: a record tagged with the queried conversation id is excluded by
the session filter of both generators if and only if its turn number (default
0 when absent) exceeds `turn_number − session_history_limit`; in particular
such a record appears in neither generator's candidates. -/
theorem exclusion_correctness (env : Env) (r : Record) (conv : String)
    (turnNumber : Int) (hC : r.meta.conversation_id = some conv) :
    (keepRow r conv (turnNumber - env.sessionLimit) = false ↔
        sqlTurn r.meta > turnNumber - env.sessionLimit) ∧
      (sqlTurn r.meta > turnNumber - env.sessionLimit →
        (∀ qEmb lim, r ∉ vectorCandRecords env qEmb conv (turnNumber - env.sessionLimit) lim) ∧
          (∀ q lim, r ∉ keywordCandRecords env q conv (turnNumber - env.sessionLimit) lim)) := by
  have hkeep : keepRow r conv (turnNumber - env.sessionLimit) = false ↔
      sqlTurn r.meta > turnNumber - env.sessionLimit := by
    by_cases ht : sqlTurn r.meta > turnNumber - env.sessionLimit <;>
      simp [keepRow, hC, sqlAnd, sqlNot, ht]
  refine ⟨hkeep, fun ht => ⟨fun qEmb lim hmem => ?_, fun q lim hmem => ?_⟩⟩
  · have := keep_of_mem_vectorCand hmem
    rw [hkeep.mpr ht] at this
    exact Bool.false_ne_true this
  · have := keep_of_mem_keywordCand hmem
    rw [hkeep.mpr ht] at this
    exact Bool.false_ne_true this

/-- A record tagged with conversation id `"conv"` and turn number 9. -/
def recSameSession : Record :=
  ⟨7, "title", "transcript", [1], ⟨some "conv", some 9⟩, "2024-01-01"⟩

/-- Witness for C3: with current turn 10 and session limit 10, turn 9 exceeds
the cutoff 0, so the record is excluded. -/
theorem exclusion_correctness_witness :
    recSameSession.meta.conversation_id = some "conv" ∧
      ((keepRow recSameSession "conv" (10 - envFail.sessionLimit) = false ↔
          sqlTurn recSameSession.meta > 10 - envFail.sessionLimit) ∧
        (sqlTurn recSameSession.meta > 10 - envFail.sessionLimit →
          (∀ qEmb lim,
              recSameSession ∉ vectorCandRecords envFail qEmb "conv" (10 - envFail.sessionLimit) lim) ∧
            (∀ q lim,
              recSameSession ∉ keywordCandRecords envFail q "conv" (10 - envFail.sessionLimit) lim))) :=
  ⟨rfl, exclusion_correctness envFail recSameSession "conv" 10 rfl⟩

/-! Sorting facts shared by several claims. -/

instance scoreRelTotal : IsTotal Document (fun a b => b.metadata.score ≤ a.metadata.score) :=
  ⟨fun a b => le_total b.metadata.score a.metadata.score⟩

instance scoreRelTrans : IsTrans Document (fun a b => b.metadata.score ≤ a.metadata.score) :=
  ⟨fun _ _ _ hab hbc => le_trans hbc hab⟩

lemma sortByScoreDesc_perm (docs : List Document) : (sortByScoreDesc docs).Perm docs :=
  List.perm_insertionSort _ docs

lemma sortByScoreDesc_sorted (docs : List Document) :
    (sortByScoreDesc docs).Pairwise (fun a b => b.metadata.score ≤ a.metadata.score) :=
  List.sorted_insertionSort _ docs

/-- Recency weighting drops no document. -/
lemma applyTimeWeighting_length (env : Env) (docs : List Document) :
    (applyTimeWeighting env docs).length = docs.length := by
  have h := (sortByScoreDesc_perm (docs.map (boostDoc env))).length_eq
  simpa [applyTimeWeighting] using h

/-- Claim C8: recency re-weighting multiplies each score by exactly 1.2 / 1.1 /
1.0 according to the tiered age policy, leaves a document with an unparsable
timestamp wholly unchanged and drops no document, and re-sorts the list
descending by the boosted score. -/
theorem time_weighting_described (env : Env) (docs : List Document) :
    (applyTimeWeighting env docs).length = docs.length ∧
      (applyTimeWeighting env docs).Perm (docs.map (boostDoc env)) ∧
      (∀ d : Document, (boostDoc env d).metadata.score = specBoostScore env d) ∧
      (∀ d : Document, env.parseTs d.metadata.timestamp = none → boostDoc env d = d) ∧
      (applyTimeWeighting env docs).Pairwise
        (fun a b => b.metadata.score ≤ a.metadata.score) := by
  refine ⟨applyTimeWeighting_length env docs, sortByScoreDesc_perm _, ?_, ?_,
    sortByScoreDesc_sorted _⟩
  · intro d
    unfold boostDoc specBoostScore boostFactor
    cases hp : env.parseTs d.metadata.timestamp with
    | none => rfl
    | some t =>
      by_cases hx : env.now - t ≤ (env.recencyDays : ℚ)
      · simp [hx]
      · by_cases hy : env.now - t ≤ 30 <;>
          simp [hx, hy, lt_of_not_le hx]
  · intro d hp
    unfold boostDoc
    rw [hp]

/-- The boost factor is antitone in age. -/
lemma boostFactor_antitone (env : Env) {a b : ℚ} (h : a ≤ b) :
    boostFactor env b ≤ boostFactor env a := by
  unfold boostFactor
  split_ifs <;> try norm_num
  all_goals linarith

/-- Claim C9 (amended): for two candidates identical except for their
timestamp, both timestamps parsing, and a nonnegative shared score, the more
recent candidate's post-boost score is at least the older one's. -/
theorem recency_monotonicity (env : Env) (pc : String) (ex : RowMeta) (i : Nat)
    (ti : String) (s : ℚ) (src : String) (tsNew tsOld : String) (tb : Option ℚ)
    (tNew tOld : ℚ) (hNew : env.parseTs tsNew = some tNew)
    (hOld : env.parseTs tsOld = some tOld) (hrec : tOld ≤ tNew) (hs : 0 ≤ s) :
    (boostDoc env ⟨pc, ⟨ex, i, ti, s, src, tsOld, tb⟩⟩).metadata.score ≤
      (boostDoc env ⟨pc, ⟨ex, i, ti, s, src, tsNew, tb⟩⟩).metadata.score := by
  unfold boostDoc
  simp only [hNew, hOld]
  exact mul_le_mul_of_nonneg_left
    (boostFactor_antitone env (by linarith : env.now - tNew ≤ env.now - tOld)) hs

/-- An environment for the recency claims: "new" parses one day old, "old"
parses 101 days old. -/
def envRecency : Env :=
  { table := []
    embedOk := true
    embed := fun _ => []
    vectorFails := false
    keywordFails := false
    cosDist := fun _ _ => 0
    tsMatch := fun _ _ => false
    tsRank := fun _ _ => 0
    parseTs := fun s => if s = "new" then some 100 else if s = "old" then some 0 else none
    now := 101
    retrievalTopK := 6
    sessionLimit := 10
    vectorK := 15
    keywordK := 10
    mmrDiversity := 3 / 10
    recencyDays := 7 }

/-- A document with a negative (vector-similarity) score and the recent
timestamp. -/
def docNeg : Document :=
  ⟨"text", ⟨⟨none, none⟩, 1, "title", -1, "vector", "new", none⟩⟩

/-- The same document except for the (old) timestamp. -/
def docNegOld : Document :=
  ⟨"text", ⟨⟨none, none⟩, 1, "title", -1, "vector", "old", none⟩⟩

/-- Counterexample to C9 as stated: with a negative shared score, the more
recent candidate's post-boost score is strictly below the older one's
(−1·1.2 < −1·1.0). -/
theorem recency_monotonicity_cex :
    (boostDoc envRecency docNeg).metadata.score <
      (boostDoc envRecency docNegOld).metadata.score := by
  have h1 : envRecency.parseTs "new" = some 100 := rfl
  have h2 : envRecency.parseTs "old" = some 0 := rfl
  simp only [boostDoc, docNeg, docNegOld, h1, h2, boostFactor]
  norm_num [envRecency]

/-- Witness for the amended C9 at a nonnegative score. -/
theorem recency_monotonicity_witness :
    envRecency.parseTs "new" = some 100 ∧ envRecency.parseTs "old" = some 0 ∧
      (0 : ℚ) ≤ 100 ∧ (0 : ℚ) ≤ 1 ∧
      (boostDoc envRecency ⟨"text", ⟨⟨none, none⟩, 1, "title", 1, "vector", "old", none⟩⟩).metadata.score ≤
        (boostDoc envRecency ⟨"text", ⟨⟨none, none⟩, 1, "title", 1, "vector", "new", none⟩⟩).metadata.score :=
  ⟨rfl, rfl, by norm_num, by norm_num,
    recency_monotonicity envRecency "text" ⟨none, none⟩ 1 "title" 1 "vector" "new" "old"
      none 100 0 rfl rfl (by norm_num) (by norm_num)⟩

/-! Fusion lemmas. -/

/-- Membership in the `seen_ids` set after one pass of `_merge_results`. -/
lemma insertRows_fst_mem (source : String) (scoreOf : Row → ℚ) :
    ∀ (rows : List Row) (seen : List Nat) (acc : List Document) (i : Nat),
      i ∈ (insertRows source scoreOf rows seen acc).1 ↔ i ∈ seen ∨ i ∈ rows.map Row.id
  | [], seen, acc, i => by simp [insertRows]
  | r :: rs, seen, acc, i => by
    by_cases hmem : r.id ∈ seen
    · rw [insertRows, if_pos hmem, insertRows_fst_mem source scoreOf rs seen acc i]
      simp only [List.map_cons, List.mem_cons]
      constructor
      · rintro (h | h)
        · exact Or.inl h
        · exact Or.inr (Or.inr h)
      · rintro (h | h | h)
        · exact Or.inl h
        · exact Or.inl (h ▸ hmem)
        · exact Or.inr h
    · rw [insertRows, if_neg hmem,
        insertRows_fst_mem source scoreOf rs (r.id :: seen) _ i]
      simp only [List.mem_cons, List.map_cons]
      tauto

/-- When the pass's rows have pairwise-distinct ids, the pass appends exactly
the rows whose id is not in the incoming `seen_ids` set. -/
lemma insertRows_snd_eq (source : String) (scoreOf : Row → ℚ) :
    ∀ (rows : List Row) (seen : List Nat) (acc : List Document),
      (rows.map Row.id).Nodup →
      (insertRows source scoreOf rows seen acc).2 =
        acc ++ (rows.filter (fun r => decide (r.id ∉ seen))).map
          (fun r => rowDoc source (scoreOf r) r)
  | [], seen, acc, _ => by simp [insertRows]
  | r :: rs, seen, acc, h => by
    have htail : (rs.map Row.id).Nodup := (List.map_cons Row.id r rs ▸ h).of_cons
    have hhead : r.id ∉ rs.map Row.id := by
      have := List.map_cons Row.id r rs ▸ h
      exact (List.nodup_cons.mp this).1
    by_cases hmem : r.id ∈ seen
    · rw [insertRows, if_pos hmem, insertRows_snd_eq source scoreOf rs seen acc htail]
      simp [hmem]
    · rw [insertRows, if_neg hmem,
        insertRows_snd_eq source scoreOf rs (r.id :: seen) _ htail]
      have hfe : rs.filter (fun x => decide (x.id ∉ r.id :: seen)) =
          rs.filter (fun x => decide (x.id ∉ seen)) := by
        refine List.filter_congr (fun x hx => ?_)
        have hne : x.id ≠ r.id := by
          intro he
          exact hhead (he ▸ List.mem_map_of_mem Row.id hx)
        simp [List.mem_cons, hne]
      rw [hfe]
      simp [hmem, List.append_assoc]

/-- Claim C7: fusion inserts all vector rows first, then exactly the keyword
rows whose id is absent from the vector rows (so vector scores win on
overlap), keyword scores being `min(rank / 0.3, 1.0)`, and the merged list is
sorted descending by score immediately after the merge. -/
theorem merge_fusion_described (vres kres : List Row)
    (hv : (vres.map Row.id).Nodup) (hk : (kres.map Row.id).Nodup) :
    mergeResults vres kres =
      sortByScoreDesc
        (vres.map (fun r => rowDoc "vector" r.val r) ++
          (kres.filter (fun r => decide (r.id ∉ vres.map Row.id))).map
            (fun r => rowDoc "keyword" (min (r.val / (3 / 10)) 1) r)) ∧
      (mergeResults vres kres).Pairwise
        (fun a b => b.metadata.score ≤ a.metadata.score) := by
  have h1 : (insertRows "vector" (fun r => r.val) vres [] []).2 =
      vres.map (fun r => rowDoc "vector" r.val r) := by
    rw [insertRows_snd_eq _ _ vres [] [] hv]
    simp
  have hfe : kres.filter
        (fun r => decide (r.id ∉ (insertRows "vector" (fun x => x.val) vres [] []).1)) =
      kres.filter (fun r => decide (r.id ∉ vres.map Row.id)) := by
    refine List.filter_congr (fun x _ => ?_)
    simp [insertRows_fst_mem]
  have h2 : mergeResults vres kres =
      sortByScoreDesc
        (vres.map (fun r => rowDoc "vector" r.val r) ++
          (kres.filter (fun r => decide (r.id ∉ vres.map Row.id))).map
            (fun r => rowDoc "keyword" (min (r.val / (3 / 10)) 1) r)) := by
    have hz : mergeResults vres kres =
        sortByScoreDesc (insertRows "keyword" keywordScore kres
          (insertRows "vector" (fun r => r.val) vres [] []).1
          (insertRows "vector" (fun r => r.val) vres [] []).2).2 := rfl
    rw [hz, insertRows_snd_eq _ _ kres _ _ hk, h1, hfe]
    rfl
  exact ⟨h2, h2 ▸ sortByScoreDesc_sorted _⟩

/-- Two overlapping candidate lists used by the fusion witness: ids 1 and 2
from the vector query, ids 2 and 3 from the keyword query. -/
def vresW : List Row :=
  [⟨1, "a", "ca", 9 / 10, ⟨none, none⟩, "t"⟩, ⟨2, "b", "cb", 1 / 2, ⟨none, none⟩, "t"⟩]

/-- Keyword rows for the fusion witness. -/
def kresW : List Row :=
  [⟨2, "b", "cb", 6 / 10, ⟨none, none⟩, "t"⟩, ⟨3, "c", "cc", 3 / 100, ⟨none, none⟩, "t"⟩]

/-! Deduplication machinery. -/

/-- `boostDoc` never changes a document's id. -/
lemma boostDoc_id (env : Env) (d : Document) :
    (boostDoc env d).metadata.id = d.metadata.id := by
  unfold boostDoc
  cases env.parseTs d.metadata.timestamp <;> rfl

/-- The `_merge_results` pass invariant: accumulated ids are distinct and all
recorded in `seen_ids`. -/
lemma insertRows_inv (source : String) (scoreOf : Row → ℚ) :
    ∀ (rows : List Row) (seen : List Nat) (acc : List Document),
      (acc.map (fun d => d.metadata.id)).Nodup →
      (∀ d ∈ acc, d.metadata.id ∈ seen) →
      ((insertRows source scoreOf rows seen acc).2.map (fun d => d.metadata.id)).Nodup ∧
        ∀ d ∈ (insertRows source scoreOf rows seen acc).2,
          d.metadata.id ∈ (insertRows source scoreOf rows seen acc).1
  | [], seen, acc, h1, h2 => ⟨h1, h2⟩
  | r :: rs, seen, acc, h1, h2 => by
    by_cases hmem : r.id ∈ seen
    · rw [insertRows, if_pos hmem]
      exact insertRows_inv source scoreOf rs seen acc h1 h2
    · rw [insertRows, if_neg hmem]
      refine insertRows_inv source scoreOf rs (r.id :: seen) _ ?_ ?_
      · rw [List.map_append]
        refine List.nodup_append.mpr ⟨h1, List.nodup_singleton _, ?_⟩
        intro x hx hx2
        have hxid : x = r.id := by simpa [rowDoc] using hx2
        rcases List.mem_map.mp hx with ⟨d, hd, hdx⟩
        exact hmem (hxid ▸ hdx ▸ h2 d hd)
      · intro d hd
        rcases List.mem_append.mp hd with hd1 | hd2
        · exact List.mem_cons_of_mem _ (h2 d hd1)
        · have : d = rowDoc source (scoreOf r) r := by simpa using hd2
          rw [this]
          exact List.mem_cons_self _ _

/-- The fused list has pairwise-distinct ids. -/
lemma mergeResults_nodup_ids (vres kres : List Row) :
    ((mergeResults vres kres).map (fun d => d.metadata.id)).Nodup := by
  have hp1 := insertRows_inv "vector" (fun r => r.val) vres [] [] (by simp) (by simp)
  have hp2 := insertRows_inv "keyword" keywordScore kres
    (insertRows "vector" (fun r => r.val) vres [] []).1
    (insertRows "vector" (fun r => r.val) vres [] []).2 hp1.1 hp1.2
  have hperm :
      ((mergeResults vres kres).map (fun d => d.metadata.id)).Perm
        (((insertRows "keyword" keywordScore kres
            (insertRows "vector" (fun r => r.val) vres [] []).1
            (insertRows "vector" (fun r => r.val) vres [] []).2).2).map
          (fun d => d.metadata.id)) :=
    (sortByScoreDesc_perm _).map _
  exact hperm.symm.nodup hp2.1

/-- `argmaxFrom` returns an element of its list. -/
lemma argmaxFrom_mem (f : Nat → ℚ) :
    ∀ (l : List Nat) (j : Nat), argmaxFrom f l = some j → j ∈ l := by
  intro l
  induction l with
  | nil => intro j h; simp [argmaxFrom] at h
  | cons i is ih =>
    intro j h
    rw [argmaxFrom] at h
    cases hh : argmaxFrom f is with
    | none =>
      rw [hh] at h
      injection h with h
      exact h ▸ List.mem_cons_self i is
    | some m =>
      rw [hh] at h
      dsimp only at h
      by_cases hc : f i < f m
      · rw [if_pos hc] at h
        injection h with h
        exact List.mem_cons_of_mem i (h ▸ ih m hh)
      · rw [if_neg hc] at h
        injection h with h
        exact h ▸ List.mem_cons_self i is

/-- `argmaxFrom` succeeds on a nonempty list. -/
lemma argmaxFrom_isSome (f : Nat → ℚ) (i : Nat) (is : List Nat) :
    ∃ j, argmaxFrom f (i :: is) = some j := by
  rw [argmaxFrom]
  cases hh : argmaxFrom f is with
  | none => exact ⟨i, rfl⟩
  | some m =>
    dsimp only
    by_cases hc : f i < f m
    · exact ⟨m, if_pos hc⟩
    · exact ⟨i, if_neg hc⟩

/-- Every index the MMR loop returns was already selected or still remaining. -/
lemma mmrLoop_subset (simAt : Nat → ℚ) (dAt : Nat → Nat → ℚ) (diversity : ℚ) (k : Nat) :
    ∀ (fuel : Nat) (selected remaining : List Nat) (i : Nat),
      i ∈ mmrLoop simAt dAt diversity k fuel selected remaining →
      i ∈ selected ∨ i ∈ remaining := by
  intro fuel
  induction fuel with
  | zero => intro sel rem i h; exact Or.inl h
  | succ n ih =>
    intro sel rem i h
    rw [mmrLoop] at h
    by_cases hlen : sel.length < k
    · rw [if_pos hlen] at h
      cases hm : argmaxFrom (mmrScore simAt dAt diversity sel) rem with
      | none => rw [hm] at h; exact Or.inl h
      | some best =>
        rw [hm] at h
        have hb : best ∈ rem := argmaxFrom_mem _ rem best hm
        rcases ih _ _ i h with hs | hr
        · rcases List.mem_append.mp hs with h1 | h2
          · exact Or.inl h1
          · have : i = best := by simpa using h2
            exact Or.inr (this ▸ hb)
        · exact Or.inr (List.erase_subset _ _ hr)
    · rw [if_neg hlen] at h
      exact Or.inl h

/-- The MMR loop preserves distinctness of the selected indices. -/
lemma mmrLoop_nodup (simAt : Nat → ℚ) (dAt : Nat → Nat → ℚ) (diversity : ℚ) (k : Nat) :
    ∀ (fuel : Nat) (selected remaining : List Nat),
      (selected ++ remaining).Nodup →
      (mmrLoop simAt dAt diversity k fuel selected remaining).Nodup := by
  intro fuel
  induction fuel with
  | zero => intro sel rem h; exact (List.nodup_append.mp h).1
  | succ n ih =>
    intro sel rem h
    rw [mmrLoop]
    by_cases hlen : sel.length < k
    · rw [if_pos hlen]
      cases hm : argmaxFrom (mmrScore simAt dAt diversity sel) rem with
      | none => exact (List.nodup_append.mp h).1
      | some best =>
        have hb : best ∈ rem := argmaxFrom_mem _ rem best hm
        refine ih _ _ ?_
        have hperm : (sel ++ rem).Perm ((sel ++ [best]) ++ rem.erase best) := by
          rw [List.append_assoc]
          exact (List.perm_cons_erase hb).append_left sel
        exact hperm.nodup h
    · rw [if_neg hlen]
      exact (List.nodup_append.mp h).1

/-- The MMR loop returns exactly `min k (selected + remaining)` indices when
fuelled with the length of `remaining`. -/
lemma mmrLoop_length (simAt : Nat → ℚ) (dAt : Nat → Nat → ℚ) (diversity : ℚ) (k : Nat) :
    ∀ (fuel : Nat) (selected remaining : List Nat),
      fuel = remaining.length → selected.length ≤ k →
      (mmrLoop simAt dAt diversity k fuel selected remaining).length =
        min k (selected.length + fuel) := by
  intro fuel
  induction fuel with
  | zero =>
    intro sel rem hf hs
    simp [mmrLoop, Nat.min_eq_right, hs]
  | succ n ih =>
    intro sel rem hf hs
    rw [mmrLoop]
    by_cases hlen : sel.length < k
    · rw [if_pos hlen]
      cases rem with
      | nil => simp at hf
      | cons r rs =>
        rcases argmaxFrom_isSome (mmrScore simAt dAt diversity sel) r rs with ⟨best, hm⟩
        rw [hm]
        have hb : best ∈ r :: rs := argmaxFrom_mem _ _ best hm
        have hrec := ih (sel ++ [best]) ((r :: rs).erase best)
          (by rw [List.length_erase_of_mem hb, ← hf]; rfl)
          (by simpa using hlen)
        rw [hrec, List.length_append]
        simp only [List.length_singleton]
        congr 1
        omega
    · rw [if_neg hlen]
      have hk : sel.length = k := le_antisymm hs (not_lt.mp hlen)
      rw [hk, Nat.min_eq_left (Nat.le_add_right _ _)]

/-- Indexing with only valid indices keeps every index. -/
lemma filterMap_getElem_length (docs : List Document) :
    ∀ sel : List Nat, (∀ i ∈ sel, i < docs.length) →
      (sel.filterMap (fun i => docs[i]?)).length = sel.length := by
  intro sel
  induction sel with
  | nil => simp
  | cons i is ih =>
    intro hv
    have hi : i < docs.length := hv i (List.mem_cons_self i is)
    rw [List.filterMap_cons, List.getElem?_eq_getElem hi]
    simpa using ih (fun j hj => hv j (List.mem_cons_of_mem i hj))

/-- Indexing a list with distinct valid indices preserves distinctness of a
projection that is injective over the list. -/
lemma filterMap_getElem_ids_nodup (docs : List Document)
    (hids : (docs.map (fun d => d.metadata.id)).Nodup) :
    ∀ sel : List Nat, sel.Nodup → (∀ i ∈ sel, i < docs.length) →
      ((sel.filterMap (fun i => docs[i]?)).map (fun d => d.metadata.id)).Nodup := by
  intro sel
  induction sel with
  | nil => simp
  | cons i is ih =>
    intro hnd hv
    have hi : i < docs.length := hv i (List.mem_cons_self i is)
    rw [List.filterMap_cons, List.getElem?_eq_getElem hi]
    simp only [List.map_cons, List.nodup_cons]
    constructor
    · intro hmem
      rcases List.mem_map.mp hmem with ⟨d, hd, hdi⟩
      rcases List.mem_filterMap.mp hd with ⟨j, hj, hjd⟩
      rcases List.getElem?_eq_some.mp hjd with ⟨hjlen, hjd2⟩
      have hij : (docs.map (fun d => d.metadata.id)).get ⟨j, by simpa using hjlen⟩ =
          (docs.map (fun d => d.metadata.id)).get ⟨i, by simpa using hi⟩ := by
        simp only [List.get_eq_getElem, List.getElem_map, hjd2, hdi]
      have hji : j = i := by simpa using hids.get_inj_iff.mp hij
      exact (List.nodup_cons.mp hnd).1 (hji ▸ hj)
    · exact ih (List.nodup_cons.mp hnd).2 (fun j hj => hv j (List.mem_cons_of_mem i hj))

/-- `_mmr_select` preserves distinctness of document ids. -/
lemma mmrSelect_nodup_ids (embedFn : String → List ℚ) (docs : List Document)
    (qEmb : List ℚ) (k : Nat) (diversity : ℚ)
    (hids : (docs.map (fun d => d.metadata.id)).Nodup) :
    ((mmrSelect embedFn docs qEmb k diversity).map (fun d => d.metadata.id)).Nodup := by
  unfold mmrSelect
  by_cases hle : docs.length ≤ k
  · rw [if_pos hle]
    exact hids
  · rw [if_neg hle]
    cases hm : argmaxFrom (simAtOf embedFn docs qEmb) (List.range docs.length) with
    | none => simp
    | some first =>
      have hfirst : first ∈ List.range docs.length := argmaxFrom_mem _ _ first hm
      have hnodup0 : ([first] ++ (List.range docs.length).erase first).Nodup := by
        have : (first :: (List.range docs.length).erase first).Nodup :=
          (List.perm_cons_erase hfirst).nodup (List.nodup_range _)
        simpa using this
      refine filterMap_getElem_ids_nodup docs hids _ ?_ ?_
      · exact mmrLoop_nodup _ _ _ _ _ _ _ hnodup0
      · intro i hi
        rcases mmrLoop_subset _ _ _ _ _ _ _ i hi with hs | hr
        · have : i = first := by simpa using hs
          exact List.mem_range.mp (this ▸ hfirst)
        · exact List.mem_range.mp (List.erase_subset _ _ hr)

/-- Recency weighting preserves distinctness of document ids. -/
lemma applyTimeWeighting_ids_nodup (env : Env) (docs : List Document)
    (h : (docs.map (fun d => d.metadata.id)).Nodup) :
    ((applyTimeWeighting env docs).map (fun d => d.metadata.id)).Nodup := by
  have hmap : (docs.map (boostDoc env)).map (fun d => d.metadata.id) =
      docs.map (fun d => d.metadata.id) := by
    rw [List.map_map]
    exact List.map_congr_left (fun d _ => boostDoc_id env d)
  have hperm : ((applyTimeWeighting env docs).map (fun d => d.metadata.id)).Perm
      ((docs.map (boostDoc env)).map (fun d => d.metadata.id)) :=
    (sortByScoreDesc_perm _).map _
  exact hperm.symm.nodup (hmap ▸ h)

/-- Witness for C7 on concrete overlapping lists. -/
theorem merge_fusion_described_witness :
    (vresW.map Row.id).Nodup ∧ (kresW.map Row.id).Nodup ∧
      (mergeResults vresW kresW =
          sortByScoreDesc
            (vresW.map (fun r => rowDoc "vector" r.val r) ++
              (kresW.filter (fun r => decide (r.id ∉ vresW.map Row.id))).map
                (fun r => rowDoc "keyword" (min (r.val / (3 / 10)) 1) r)) ∧
        (mergeResults vresW kresW).Pairwise
          (fun a b => b.metadata.score ≤ a.metadata.score)) :=
  ⟨by decide, by decide, merge_fusion_described vresW kresW (by decide) (by decide)⟩

/-- The loop returns `selected` unchanged once `k` is reached. -/
lemma mmrLoop_done (simAt : Nat → ℚ) (dAt : Nat → Nat → ℚ) (diversity : ℚ) (k : Nat)
    (fuel : Nat) (selected remaining : List Nat) (h : ¬ selected.length < k) :
    mmrLoop simAt dAt diversity k fuel selected remaining = selected := by
  cases fuel with
  | zero => rfl
  | succ n => rw [mmrLoop, if_neg h]

/-- With a positive `k`, `_mmr_select` returns exactly `min k P` documents. -/
lemma mmrSelect_length (embedFn : String → List ℚ) (docs : List Document)
    (qEmb : List ℚ) (k : Nat) (diversity : ℚ) (hk : 1 ≤ k) :
    (mmrSelect embedFn docs qEmb k diversity).length = min k docs.length := by
  unfold mmrSelect
  by_cases hle : docs.length ≤ k
  · rw [if_pos hle, Nat.min_eq_right hle]
  · rw [if_neg hle]
    have hlen0 : 0 < docs.length := by omega
    obtain ⟨j, hm⟩ : ∃ j,
        argmaxFrom (simAtOf embedFn docs qEmb) (List.range docs.length) = some j := by
      cases hr : List.range docs.length with
      | nil =>
        rw [List.range_eq_nil] at hr
        omega
      | cons a as => exact argmaxFrom_isSome _ a as
    rw [hm]
    dsimp only
    have hj : j ∈ List.range docs.length := argmaxFrom_mem _ _ j hm
    have hvalid : ∀ i ∈ mmrLoop (simAtOf embedFn docs qEmb) (dAtOf embedFn docs)
        diversity k (docs.length - 1) [j] ((List.range docs.length).erase j),
        i < docs.length := by
      intro i hi
      rcases mmrLoop_subset _ _ _ _ _ _ _ i hi with hs | hr
      · have : i = j := by simpa using hs
        exact List.mem_range.mp (this ▸ hj)
      · exact List.mem_range.mp (List.erase_subset _ _ hr)
    rw [filterMap_getElem_length docs _ hvalid]
    rw [mmrLoop_length _ _ _ _ _ _ _
      (by rw [List.length_erase_of_mem hj, List.length_range]) (by simpa using hk)]
    have h1 : [j].length + (docs.length - 1) = docs.length := by
      simp only [List.length_singleton]
      omega
    rw [h1]

/-- Claim C5: within one retrieval call no two returned documents share the
same source record id — fusion deduplicates and every later stage preserves
distinctness. -/
theorem retrieve_dedup (env : Env) (query conversationId : String)
    (turnNumber : Int) (topK : Option Nat) :
    ((hybridRetrieve env query conversationId turnNumber topK).map
      (fun d => d.metadata.id)).Nodup := by
  by_cases he : env.embedOk = true
  · by_cases hv : env.vectorFails = true
    · rw [hybrid_fail_nil env query conversationId turnNumber topK (Or.inr (Or.inl hv))]
      simp
    · by_cases hk : env.keywordFails = true
      · rw [hybrid_fail_nil env query conversationId turnNumber topK (Or.inr (Or.inr hk))]
        simp
      · have hv2 : env.vectorFails = false := Bool.not_eq_true _ |>.mp hv
        have hk2 : env.keywordFails = false := Bool.not_eq_true _ |>.mp hk
        rw [hybridRetrieve_success env he hv2 hk2 query conversationId turnNumber topK]
        have hweighted := applyTimeWeighting_ids_nodup env
          (mergeResults
            (vectorRows env (env.embed query) conversationId
              (turnNumber - env.sessionLimit) env.vectorK)
            (keywordRows env query conversationId
              (turnNumber - env.sessionLimit) env.keywordK))
          (mergeResults_nodup_ids _ _)
        by_cases hc : topK.getD env.retrievalTopK <
            (applyTimeWeighting env
              (mergeResults
                (vectorRows env (env.embed query) conversationId
                  (turnNumber - env.sessionLimit) env.vectorK)
                (keywordRows env query conversationId
                  (turnNumber - env.sessionLimit) env.keywordK))).length
        · rw [if_pos hc]
          exact mmrSelect_nodup_ids _ _ _ _ _ hweighted
        · rw [if_neg hc]
          exact List.Nodup.sublist ((List.take_sublist _ _).map _) hweighted
  · rw [hybrid_fail_nil env query conversationId turnNumber topK
      (Or.inl (Bool.not_eq_true _ |>.mp he))]
    simp

/-- Claim C4 (amended): on a successful run with `top_k ≥ 1`, the number of
returned documents is exactly `min top_k D`, where `D` is the number of
distinct fused candidates; in particular it is at most `top_k`. -/
theorem retrieve_size_bound (env : Env) (query conversationId : String)
    (turnNumber : Int) (topK : Option Nat) (he : env.embedOk = true)
    (hv : env.vectorFails = false) (hk : env.keywordFails = false)
    (h1 : 1 ≤ topK.getD env.retrievalTopK) :
    (hybridRetrieve env query conversationId turnNumber topK).length =
        min (topK.getD env.retrievalTopK)
          (mergeResults
            (vectorRows env (env.embed query) conversationId
              (turnNumber - env.sessionLimit) env.vectorK)
            (keywordRows env query conversationId
              (turnNumber - env.sessionLimit) env.keywordK)).length ∧
      (hybridRetrieve env query conversationId turnNumber topK).length ≤
        topK.getD env.retrievalTopK := by
  have hmain : (hybridRetrieve env query conversationId turnNumber topK).length =
      min (topK.getD env.retrievalTopK)
        (mergeResults
          (vectorRows env (env.embed query) conversationId
            (turnNumber - env.sessionLimit) env.vectorK)
          (keywordRows env query conversationId
            (turnNumber - env.sessionLimit) env.keywordK)).length := by
    rw [hybridRetrieve_success env he hv hk query conversationId turnNumber topK]
    by_cases hc : topK.getD env.retrievalTopK <
        (applyTimeWeighting env
          (mergeResults
            (vectorRows env (env.embed query) conversationId
              (turnNumber - env.sessionLimit) env.vectorK)
            (keywordRows env query conversationId
              (turnNumber - env.sessionLimit) env.keywordK))).length
    · rw [if_pos hc, mmrSelect_length _ _ _ _ _ h1, applyTimeWeighting_length]
    · rw [if_neg hc, List.length_take, applyTimeWeighting_length]
  exact ⟨hmain, hmain ▸ Nat.min_le_left _ _⟩

/-- The one-record store used by the size-bound counterexample and witness. -/
def recOne : Record :=
  ⟨1, "t", "hello", [1], ⟨some "other", some 0⟩, "ts"⟩

/-- A fully successful environment whose store holds exactly `recOne`. -/
def envOne : Env :=
  { table := [recOne]
    embedOk := true
    embed := fun _ => [1]
    vectorFails := false
    keywordFails := false
    cosDist := fun _ _ => 0
    tsMatch := fun _ _ => false
    tsRank := fun _ _ => 0
    parseTs := fun _ => none
    now := 0
    retrievalTopK := 6
    sessionLimit := 10
    vectorK := 15
    keywordK := 10
    mmrDiversity := 3 / 10
    recencyDays := 7 }

/-- Counterexample to C4 as stated: with `top_k = 0` and one fused candidate,
`_mmr_select` selects its first document before checking `k`, so the call
returns 1 document and the size bound `len ≤ top_k` fails. -/
theorem retrieve_size_bound_cex :
    ¬ ((hybridRetrieve envOne "q" "conv" 0 (some 0)).length ≤ 0) := by
  have h : (hybridRetrieve envOne "q" "conv" 0 (some 0)).length = 1 := by
    rw [hybridRetrieve_success envOne rfl rfl rfl "q" "conv" 0 (some 0)]
    norm_num [vectorRows, vectorCandRecords, keywordRows, keywordCandRecords, keepRow,
      sqlAnd, sqlNot, sqlTurn, envOne, recOne, List.insertionSort, List.orderedInsert,
      vecRowOf, keyRowOf, mergeResults, insertRows, rowDoc, sortByScoreDesc,
      applyTimeWeighting, boostDoc, mmrSelect, simAtOf, dAtOf, docEmbsOf, dotProd,
      argmaxFrom, mmrLoop, mmrScore, listMaxQ, keywordScore, List.filterMap_cons]
  omega

/-- Agreement of two documents on content and all identity metadata: only the
score and `time_boost` fields may differ. -/
def FrameEq (d m : Document) : Prop :=
  d.page_content = m.page_content ∧ d.metadata.id = m.metadata.id ∧
    d.metadata.title = m.metadata.title ∧ d.metadata.source = m.metadata.source ∧
    d.metadata.timestamp = m.metadata.timestamp ∧ d.metadata.extra = m.metadata.extra

/-- `boostDoc` writes only the score and `time_boost` fields. -/
lemma boostDoc_frame (env : Env) (d : Document) : FrameEq (boostDoc env d) d := by
  unfold boostDoc FrameEq
  cases env.parseTs d.metadata.timestamp <;> simp

/-- `_mmr_select` only selects documents from its input pool. -/
lemma mmrSelect_subset (embedFn : String → List ℚ) (docs : List Document)
    (qEmb : List ℚ) (k : Nat) (diversity : ℚ) :
    ∀ d ∈ mmrSelect embedFn docs qEmb k diversity, d ∈ docs := by
  unfold mmrSelect
  by_cases hle : docs.length ≤ k
  · rw [if_pos hle]
    exact fun d hd => hd
  · rw [if_neg hle]
    cases hm : argmaxFrom (simAtOf embedFn docs qEmb) (List.range docs.length) with
    | none => simp
    | some first =>
      intro d hd
      rcases List.mem_filterMap.mp hd with ⟨i, _, hid⟩
      rcases List.getElem?_eq_some.mp hid with ⟨hlt, hEq⟩
      exact hEq ▸ List.getElem_mem hlt

/-- Every document surviving recency weighting is the boost of a fused one. -/
lemma applyTimeWeighting_mem {env : Env} {docs : List Document} {d : Document}
    (h : d ∈ applyTimeWeighting env docs) : ∃ m ∈ docs, boostDoc env m = d := by
  have h2 : d ∈ docs.map (boostDoc env) :=
    (sortByScoreDesc_perm (docs.map (boostDoc env))).mem_iff.mp h
  rcases List.mem_map.mp h2 with ⟨m, hm, hmd⟩
  exact ⟨m, hm, hmd⟩

/-- Witness for the amended C4 on the one-record store with `top_k = 2`. -/
theorem retrieve_size_bound_witness :
    envOne.embedOk = true ∧ envOne.vectorFails = false ∧ envOne.keywordFails = false ∧
      1 ≤ (some 2 : Option Nat).getD envOne.retrievalTopK ∧
      ((hybridRetrieve envOne "q" "conv" 0 (some 2)).length =
          min ((some 2 : Option Nat).getD envOne.retrievalTopK)
            (mergeResults
              (vectorRows envOne (envOne.embed "q") "conv"
                (0 - envOne.sessionLimit) envOne.vectorK)
              (keywordRows envOne "q" "conv"
                (0 - envOne.sessionLimit) envOne.keywordK)).length ∧
        (hybridRetrieve envOne "q" "conv" 0 (some 2)).length ≤
          (some 2 : Option Nat).getD envOne.retrievalTopK) :=
  ⟨rfl, rfl, rfl, by norm_num,
    retrieve_size_bound envOne "q" "conv" 0 (some 2) rfl rfl rfl (by norm_num)⟩

/-- Claim C10: fusion, recency weighting and MMR never modify a surviving
document's content or identity metadata — every returned document agrees with
a fused document on `page_content`, `id`, `title`, `source`, `timestamp` and
the spread record metadata, and recency weighting writes only the score and
`time_boost` fields. -/
theorem pipeline_frame :
    (∀ (env : Env) (query conversationId : String) (turnNumber : Int)
        (topK : Option Nat) (d : Document),
        d ∈ hybridRetrieve env query conversationId turnNumber topK →
        ∃ m ∈ mergeResults
            (vectorRows env (env.embed query) conversationId
              (turnNumber - env.sessionLimit) env.vectorK)
            (keywordRows env query conversationId
              (turnNumber - env.sessionLimit) env.keywordK), FrameEq d m) ∧
      ∀ (env : Env) (d : Document), FrameEq (boostDoc env d) d := by
  refine ⟨?_, boostDoc_frame⟩
  intro env query conversationId turnNumber topK d hd
  by_cases he : env.embedOk = true
  · by_cases hv : env.vectorFails = true
    · rw [hybrid_fail_nil env query conversationId turnNumber topK
        (Or.inr (Or.inl hv))] at hd
      simp at hd
    · by_cases hk : env.keywordFails = true
      · rw [hybrid_fail_nil env query conversationId turnNumber topK
          (Or.inr (Or.inr hk))] at hd
        simp at hd
      · rw [hybridRetrieve_success env he (Bool.not_eq_true _ |>.mp hv)
          (Bool.not_eq_true _ |>.mp hk) query conversationId turnNumber topK] at hd
        have hdw : d ∈ applyTimeWeighting env
            (mergeResults
              (vectorRows env (env.embed query) conversationId
                (turnNumber - env.sessionLimit) env.vectorK)
              (keywordRows env query conversationId
                (turnNumber - env.sessionLimit) env.keywordK)) := by
          by_cases hc : topK.getD env.retrievalTopK <
              (applyTimeWeighting env
                (mergeResults
                  (vectorRows env (env.embed query) conversationId
                    (turnNumber - env.sessionLimit) env.vectorK)
                  (keywordRows env query conversationId
                    (turnNumber - env.sessionLimit) env.keywordK))).length
          · rw [if_pos hc] at hd
            exact mmrSelect_subset _ _ _ _ _ d hd
          · rw [if_neg hc] at hd
            exact List.take_subset _ _ hd
        rcases applyTimeWeighting_mem hdw with ⟨m, hm, hmd⟩
        exact ⟨m, hm, hmd ▸ boostDoc_frame env m⟩
  · rw [hybrid_fail_nil env query conversationId turnNumber topK
      (Or.inl (Bool.not_eq_true _ |>.mp he))] at hd
    simp at hd

/-- The document the one-record store yields through the whole pipeline. -/
def docOneOut : Document :=
  ⟨"hello", ⟨⟨some "other", some 0⟩, 1, "t", 1, "vector", "ts", none⟩⟩

/-- Witness for C10: the document returned on the one-record store agrees with
a fused document on content and identity. -/
theorem pipeline_frame_witness :
    docOneOut ∈ hybridRetrieve envOne "q" "conv" 0 none ∧
      ∃ m ∈ mergeResults
          (vectorRows envOne (envOne.embed "q") "conv"
            (0 - envOne.sessionLimit) envOne.vectorK)
          (keywordRows envOne "q" "conv"
            (0 - envOne.sessionLimit) envOne.keywordK), FrameEq docOneOut m := by
  have hmem : docOneOut ∈ hybridRetrieve envOne "q" "conv" 0 none := by
    rw [hybridRetrieve_success envOne rfl rfl rfl "q" "conv" 0 none]
    norm_num [vectorRows, vectorCandRecords, keywordRows, keywordCandRecords, keepRow,
      sqlAnd, sqlNot, sqlTurn, envOne, recOne, List.insertionSort, List.orderedInsert,
      vecRowOf, keyRowOf, mergeResults, insertRows, rowDoc, sortByScoreDesc,
      applyTimeWeighting, boostDoc, keywordScore, docOneOut]
  exact ⟨hmem, pipeline_frame.1 envOne "q" "conv" 0 none docOneOut hmem⟩

/-! Bridge between the index-based code MMR and the candidate-based spec MMR. -/

/-- The candidate carried by index `i`: the pair of `i` and the `i`-th pool
document. -/
def prOf (docs : List Document) : Nat → Nat × Document :=
  fun i => (i, docs.getD i default)

lemma prOf_inj (docs : List Document) : Function.Injective (prOf docs) :=
  fun _ _ h => congrArg Prod.fst h

lemma getD_map_of_lt {α β : Type} (f : α → β) (l : List α) (i : Nat)
    (h : i < l.length) (d : α) (d2 : β) : (l.map f).getD i d2 = f (l.getD i d) := by
  rw [List.getD_eq_getElem (l.map f) d2 (by simpa using h), List.getD_eq_getElem l d h,
    List.getElem_map]

/-- Query relevance agrees across the two representations at valid indices. -/
lemma rel_pr (embedFn : String → List ℚ) (docs : List Document) (qEmb : List ℚ)
    (i : Nat) (h : i < docs.length) :
    specRelOf embedFn qEmb (prOf docs i) = simAtOf embedFn docs qEmb i := by
  unfold specRelOf simAtOf specEmbOf docEmbsOf prOf
  rw [getD_map_of_lt _ docs i h default]

/-- Candidate-to-candidate similarity agrees across the two representations. -/
lemma sim_pr (embedFn : String → List ℚ) (docs : List Document) (i j : Nat)
    (hi : i < docs.length) (hj : j < docs.length) :
    specSimOf embedFn (prOf docs i) (prOf docs j) = dAtOf embedFn docs i j := by
  unfold specSimOf dAtOf specEmbOf docEmbsOf prOf
  rw [getD_map_of_lt _ docs i hi default, getD_map_of_lt _ docs j hj default]

/-- The spec's per-round score agrees with the code's `mmrScore`. -/
lemma score_pr (embedFn : String → List ℚ) (docs : List Document) (qEmb : List ℚ)
    (diversity : ℚ) (selected : List Nat) (i : Nat) (hi : i < docs.length)
    (hsel : ∀ j ∈ selected, j < docs.length) :
    (1 - diversity) * specRelOf embedFn qEmb (prOf docs i) -
        diversity * listMaxQ ((selected.map (prOf docs)).map
          (fun s => specSimOf embedFn (prOf docs i) s)) =
      mmrScore (simAtOf embedFn docs qEmb) (dAtOf embedFn docs) diversity selected i := by
  unfold mmrScore
  rw [rel_pr embedFn docs qEmb i hi, List.map_map]
  have hmaps : selected.map ((fun s => specSimOf embedFn (prOf docs i) s) ∘ prOf docs) =
      selected.map (fun j => dAtOf embedFn docs i j) := by
    refine List.map_congr_left ?_
    intro j hj
    exact sim_pr embedFn docs i j hi (hsel j hj)
  rw [hmaps]

/-- Removal commutes with mapping an injective function over the pool. -/
lemma removeFirst_map {α β : Type} [DecidableEq α] [DecidableEq β] (f : α → β)
    (hf : Function.Injective f) (a : α) :
    ∀ l : List α, removeFirst (f a) (l.map f) = (removeFirst a l).map f := by
  intro l
  induction l with
  | nil => rfl
  | cons b bs ih =>
    rw [List.map_cons, removeFirst, removeFirst]
    by_cases hb : b = a
    · rw [if_pos (by rw [hb]), if_pos hb]
    · rw [if_neg (fun he => hb (hf he)), if_neg hb, List.map_cons, ih]

/-- On indices, spec-side removal is the code's `erase`. -/
lemma removeFirst_eq_erase {α : Type} [DecidableEq α] (a : α) :
    ∀ l : List α, removeFirst a l = l.erase a := by
  intro l
  induction l with
  | nil => rfl
  | cons b bs ih =>
    rw [removeFirst, List.erase_cons]
    by_cases hb : b = a
    · rw [if_pos hb, if_pos (beq_iff_eq.mpr hb)]
    · rw [if_neg hb, if_neg (by simpa using hb), ih]

/-- `specPick` over a mapped pool is `argmaxFrom` over the indices. -/
lemma specPick_map_pr {α : Type} (score : α → ℚ) (f : Nat → ℚ) (g : Nat → α) :
    ∀ is : List Nat, (∀ i ∈ is, f i = score (g i)) →
      specPick score (is.map g) = (argmaxFrom f is).map g := by
  intro is
  induction is with
  | nil => intro _; rfl
  | cons i is ih =>
    intro hcong
    rw [List.map_cons, specPick, argmaxFrom,
      ih (fun j hj => hcong j (List.mem_cons_of_mem i hj))]
    cases hh : argmaxFrom f is with
    | none => rfl
    | some m =>
      have hm : f m = score (g m) :=
        hcong m (List.mem_cons_of_mem i (argmaxFrom_mem f is m hh))
      have hi : f i = score (g i) := hcong i (List.mem_cons_self i is)
      simp only [Option.map_some']
      rw [← hm, ← hi]
      by_cases hc : f i < f m
      · rw [if_pos hc, if_pos hc, Option.map_some']
      · rw [if_neg hc, if_neg hc, Option.map_some']

/-- The greedy loops of the code and of the spec coincide: the spec runs
`fuelS` rounds on candidate pairs, the code runs on indices with fuel equal to
the size of `remaining`. -/
lemma loop_bridge (embedFn : String → List ℚ) (docs : List Document) (qEmb : List ℚ)
    (diversity : ℚ) (k : Nat) :
    ∀ (fuelC fuelS : Nat) (selected remaining : List Nat),
      fuelC = remaining.length →
      (∀ i ∈ selected, i < docs.length) →
      (∀ i ∈ remaining, i < docs.length) →
      ((fuelS = 0 ∧ k ≤ selected.length) ∨ selected.length + fuelS = k) →
      specRounds (specRelOf embedFn qEmb) (specSimOf embedFn) diversity fuelS
          (selected.map (prOf docs)) (remaining.map (prOf docs)) =
        (mmrLoop (simAtOf embedFn docs qEmb) (dAtOf embedFn docs) diversity k fuelC
            selected remaining).map (prOf docs) := by
  intro fuelC
  induction fuelC with
  | zero =>
    intro fuelS selected remaining hf _ _ hdisj
    have hrem : remaining = [] := List.eq_nil_of_length_eq_zero hf.symm
    subst hrem
    cases fuelS with
    | zero => rfl
    | succ s =>
      rw [specRounds]
      rfl
  | succ m ih =>
    intro fuelS selected remaining hf hselv hremv hdisj
    cases hrem : remaining with
    | nil =>
      rw [hrem] at hf
      simp at hf
    | cons r rs =>
      subst hrem
      rcases hdisj with ⟨hs0, hk⟩ | hsum
      · subst hs0
        rw [mmrLoop, if_neg (not_lt.mpr hk)]
        rfl
      · cases fuelS with
        | zero =>
          rw [mmrLoop, if_neg (by omega)]
          rfl
        | succ s =>
          have hlt : selected.length < k := by omega
          rw [mmrLoop, if_pos hlt]
          rcases argmaxFrom_isSome
              (mmrScore (simAtOf embedFn docs qEmb) (dAtOf embedFn docs) diversity selected)
              r rs with ⟨best, hm⟩
          rw [hm]
          have hbest : best ∈ r :: rs := argmaxFrom_mem _ _ best hm
          have hbestv : best < docs.length := hremv best hbest
          rw [specRounds]
          have hpick : specPick
              (fun c => (1 - diversity) * specRelOf embedFn qEmb c -
                diversity * listMaxQ ((selected.map (prOf docs)).map
                  (fun s => specSimOf embedFn c s)))
              ((r :: rs).map (prOf docs)) = some (prOf docs best) := by
            rw [specPick_map_pr _
              (mmrScore (simAtOf embedFn docs qEmb) (dAtOf embedFn docs) diversity selected)
              (prOf docs) (r :: rs)
              (fun i hi => (score_pr embedFn docs qEmb diversity selected i
                (hremv i hi) hselv).symm), hm]
            rfl
          rw [hpick]
          dsimp only
          have herase : removeFirst (prOf docs best) ((r :: rs).map (prOf docs)) =
              ((r :: rs).erase best).map (prOf docs) := by
            rw [removeFirst_map (prOf docs) (prOf_inj docs) best (r :: rs),
              removeFirst_eq_erase]
          have happend : selected.map (prOf docs) ++ [prOf docs best] =
              (selected ++ [best]).map (prOf docs) := by
            rw [List.map_append]
            rfl
          rw [herase, happend]
          exact ih (s) (selected ++ [best]) ((r :: rs).erase best)
            (by rw [List.length_erase_of_mem hbest]; simpa using hf)
            (by
              intro i hi
              rcases List.mem_append.mp hi with h1 | h2
              · exact hselv i h1
              · have : i = best := by simpa using h2
                exact this ▸ hbestv)
            (fun i hi => hremv i (List.erase_subset _ _ hi))
            (Or.inr (by simp only [List.length_append, List.length_singleton]; omega))

/-- The position-annotated candidate pool is the index range mapped to pairs. -/
lemma enum_eq_range_map (docs : List Document) :
    docs.enum = (List.range docs.length).map (prOf docs) := by
  refine List.ext_getElem ?_ ?_
  · simp [List.enum_length]
  · intro n h1 h2
    have hn : n < docs.length := by simpa using h1
    rw [List.getElem_enum, List.getElem_map, List.getElem_range]
    unfold prOf
    rw [List.getD_eq_getElem docs default hn]

/-- Indexing with valid indices is mapping the indexed lookup. -/
lemma filterMap_getElem_eq_map (docs : List Document) :
    ∀ sel : List Nat, (∀ i ∈ sel, i < docs.length) →
      sel.filterMap (fun i => docs[i]?) = sel.map (fun i => docs.getD i default) := by
  intro sel
  induction sel with
  | nil => simp
  | cons i is ih =>
    intro hv
    have hi : i < docs.length := hv i (List.mem_cons_self i is)
    rw [List.filterMap_cons, List.getElem?_eq_getElem hi]
    dsimp only
    rw [List.map_cons, ih (fun j hj => hv j (List.mem_cons_of_mem i hj)),
      List.getD_eq_getElem docs default hi]

/-- Claim C6: `_mmr_select` implements the reference greedy MMR — the pool is
returned whole when it fits in `top_k`; otherwise documents are embedded from
the first 500 characters of content, the first selection maximizes dot-product
similarity to the query, each following selection maximizes
`(1 − diversity)·relevance − diversity·max(similarity to selected)`, ties
resolve to the first-encountered candidate, and output is in selection
order. -/
theorem mmr_matches_reference (embedFn : String → List ℚ) (documents : List Document)
    (qEmb : List ℚ) (k : Nat) (diversity : ℚ) :
    mmrSelect embedFn documents qEmb k diversity =
      mmrSpecSelect embedFn documents qEmb k diversity := by
  unfold mmrSelect mmrSpecSelect
  by_cases hle : documents.length ≤ k
  · rw [if_pos hle, if_pos hle]
  · rw [if_neg hle, if_neg hle, enum_eq_range_map documents,
      specPick_map_pr (specRelOf embedFn qEmb) (simAtOf embedFn documents qEmb)
        (prOf documents) (List.range documents.length)
        (fun i hi => (rel_pr embedFn documents qEmb i (List.mem_range.mp hi)).symm)]
    cases hm : argmaxFrom (simAtOf embedFn documents qEmb)
        (List.range documents.length) with
    | none => rfl
    | some first =>
      simp only [Option.map_some']
      have hfirst : first ∈ List.range documents.length := argmaxFrom_mem _ _ first hm
      have hfv : first < documents.length := List.mem_range.mp hfirst
      have hrf : removeFirst (prOf documents first)
          ((List.range documents.length).map (prOf documents)) =
          ((List.range documents.length).erase first).map (prOf documents) := by
        rw [removeFirst_map (prOf documents) (prOf_inj documents) first,
          removeFirst_eq_erase]
      rw [hrf]
      have hsel1 : [first].map (prOf documents) = [prOf documents first] := rfl
      rw [← hsel1,
        loop_bridge embedFn documents qEmb diversity k (documents.length - 1) (k - 1)
          [first] ((List.range documents.length).erase first)
          (by rw [List.length_erase_of_mem hfirst, List.length_range])
          (by
            intro i hi
            have : i = first := by simpa using hi
            exact this ▸ hfv)
          (fun i hi => List.mem_range.mp (List.erase_subset _ _ hi))
          (by
            by_cases h0 : k = 0
            · exact Or.inl ⟨by omega, by simp [h0]⟩
            · exact Or.inr (by simp only [List.length_singleton]; omega))]
      have hvalid : ∀ i ∈ mmrLoop (simAtOf embedFn documents qEmb)
          (dAtOf embedFn documents) diversity k (documents.length - 1)
          [first] ((List.range documents.length).erase first), i < documents.length := by
        intro i hi
        rcases mmrLoop_subset _ _ _ _ _ _ _ i hi with hs | hr
        · have : i = first := by simpa using hs
          exact this ▸ hfv
        · exact List.mem_range.mp (List.erase_subset _ _ hr)
      rw [List.map_map, filterMap_getElem_eq_map documents _ hvalid]
      rfl

end SecondBrain
